import Mathlib

/-!
Verification of the srpo activity-extraction pipeline.

This file gives a shallow embedding of the core of `activity_parser.py` and
`srpo.py` (the record extractor, the wait primitive, the link classifier,
pagination and scope selection) and proves the testable properties stated in
the specification against that embedding.

Python strings are modelled as Lean `String`; Python `str.startswith` is
modelled on the underlying character lists; HTML structure (as exposed by
BeautifulSoup) is modelled by explicit structures carrying exactly the
attributes and children the source code inspects; Python exceptions are
modelled by `Except PyErr`.
-/

deriving instance DecidableEq for Except

/-- Python `s.startswith(p)`: `p` is a prefix of `s`. -/
def pyStartswith (s p : String) : Bool :=
  p.toList.isPrefixOf s.toList

/-- Boolean substring test on character lists. -/
def listContainsSub (needle : List Char) : List Char → Bool
  | [] => needle.isEmpty
  | c :: t => needle.isPrefixOf (c :: t) || listContainsSub needle t

/-- Python `needle in hay` for strings: substring containment. -/
def pyIn (needle hay : String) : Bool :=
  listContainsSub needle.toList hay.toList

/-- Python `s.split(", ")` on character lists, specialised to the literal
comma-space separator used by `ActivityParser.parse`: scan left to right,
splitting at each non-overlapping occurrence of the separator. -/
def splitCommaSpaceAux : List Char → List Char → List (List Char)
  | [], acc => [acc.reverse]
  | [c], acc => [(c :: acc).reverse]
  | c1 :: c2 :: rest, acc =>
    if c1 = Char.ofNat 44 ∧ c2 = Char.ofNat 32 then
      acc.reverse :: splitCommaSpaceAux rest []
    else
      splitCommaSpaceAux (c2 :: rest) (c1 :: acc)

/-- Python `s.split(", ")` on strings. -/
def pySplitCommaSpace (s : String) : List String :=
  (splitCommaSpaceAux s.toList []).map (fun l => String.mk l)

/-- The ASCII apostrophe character, written via its code point. -/
def apos : String := String.singleton (Char.ofNat 39)

/-- The label `Children's Class` returned by the classifier. -/
def childrensClassLabel : String := "Children" ++ apos ++ "s Class"

/-- `ActivityParser.childrens_class_grades`: `[f"Grade {x}" for x in range(1, 7)]`. -/
def childrens_class_grades : List String :=
  (List.range' 1 6).map (fun x => "Grade " ++ toString x)

/-- `ActivityParser.study_circle_books`:
`[f"Book {x}" for x in range(1, 8)] + [f"Book {x} (U{y})" for x in range(8, 15) for y in range(1, 4)]`. -/
def study_circle_books : List String :=
  (List.range' 1 7).map (fun x => "Book " ++ toString x) ++
    (List.range' 8 7).flatMap (fun x =>
      (List.range' 1 3).map (fun y => "Book " ++ toString x ++ " (U" ++ toString y ++ ")"))

/-- `ActivityParser.junior_youth_texts`: the twelve fixed youth-text titles. -/
def junior_youth_texts : List String :=
  ["Breezes of Confirmation",
   "Wellspring of Joy",
   "Habits of an Orderly Mind",
   "Glimmerings of Hope",
   "Walking the Straight Path",
   "Learning About Excellence",
   "Thinking About Numbers",
   "Observation and Insight",
   "The Human Temple",
   "Drawing on the Power of the Word",
   "Spirit of Faith",
   "Power of the Holy Spirit"]

/-- `ActivityParser.all_activity_prefixes`. -/
def all_activity_prefixes : List String :=
  childrens_class_grades ++ study_circle_books ++ junior_youth_texts

/-- `Activity._get_activity_type`, as a function of the `stage` member: three
loops with early return, each testing `self.stage.startswith(tok)` against one
of the fixed token lists, falling through to `"Unknown Activity Type"`. -/
def getActivityTypeCore (stage : String) : String :=
  if study_circle_books.any (fun b => pyStartswith stage b) then "Study Circle"
  else if junior_youth_texts.any (fun t => pyStartswith stage t) then "Junior Youth Group"
  else if childrens_class_grades.any (fun g => pyStartswith stage g) then childrensClassLabel
  else "Unknown Activity Type"

/-- The `Person` dataclass.  `name` and `isBahai` start as `None` in the row
loop of `_parse_person_table` and may be left unset, so they are `Option`s. -/
structure Person where
  name : Option String
  locality : String
  isCurrent : Bool
  isBahai : Option Bool
deriving DecidableEq, Repr

/-- The `Activity` dataclass. `doing_service_projects` is `None` except for
junior youth groups. -/
structure Activity where
  locality : String
  neighbourhood : String
  start_date : String
  stage : String
  facilitators : List Person
  participants : List Person
  doing_service_projects : Option Bool
deriving DecidableEq, Repr

/-- `Activity._get_activity_type` as a method. -/
def Activity.getActivityType (a : Activity) : String :=
  getActivityTypeCore a.stage

/-- `Activity.__str__`: `f"{self._get_activity_type()}, {self.stage} - {self.locality}"`. -/
def Activity.toStr (a : Activity) : String :=
  a.getActivityType ++ ", " ++ a.stage ++ " - " ++ a.locality

/-! ### Disjointness of the classifier token lists -/

/-- Two boolean prefixes of a common list are comparable. -/
theorem isPrefixOf_total_of_common {p q s : List Char}
    (hp : p.isPrefixOf s = true) (hq : q.isPrefixOf s = true) :
    p.isPrefixOf q = true ∨ q.isPrefixOf p = true := by
  induction p generalizing q s with
  | nil => left; cases q <;> simp [List.isPrefixOf]
  | cons a as ih =>
    cases q with
    | nil => right; simp [List.isPrefixOf]
    | cons b bs =>
      cases s with
      | nil => simp [List.isPrefixOf] at hp
      | cons c cs =>
        simp only [List.isPrefixOf, Bool.and_eq_true, beq_iff_eq] at hp hq
        rcases hp with ⟨rfl, hp2⟩
        rcases hq with ⟨rfl, hq2⟩
        rcases ih hp2 hq2 with h | h
        · left; simp [List.isPrefixOf, h]
        · right; simp [List.isPrefixOf, h]

/-- No grade label and curriculum-book label are prefixes of one another. -/
theorem grades_books_incomparable :
    ∀ g ∈ childrens_class_grades, ∀ b ∈ study_circle_books,
      g.toList.isPrefixOf b.toList = false ∧ b.toList.isPrefixOf g.toList = false := by
  decide

/-- No grade label and youth-text title are prefixes of one another. -/
theorem grades_texts_incomparable :
    ∀ g ∈ childrens_class_grades, ∀ t ∈ junior_youth_texts,
      g.toList.isPrefixOf t.toList = false ∧ t.toList.isPrefixOf g.toList = false := by
  decide

/-- No youth-text title and curriculum-book label are prefixes of one another. -/
theorem texts_books_incomparable :
    ∀ t ∈ junior_youth_texts, ∀ b ∈ study_circle_books,
      t.toList.isPrefixOf b.toList = false ∧ b.toList.isPrefixOf t.toList = false := by
  decide

/-- A string cannot start with tokens from two of the lists at once. -/
theorem startswith_not_both {stage : String} {l1 l2 : List String}
    (hinc : ∀ x ∈ l1, ∀ y ∈ l2,
      x.toList.isPrefixOf y.toList = false ∧ y.toList.isPrefixOf x.toList = false)
    (h1 : l1.any (fun x => pyStartswith stage x) = true) :
    l2.any (fun y => pyStartswith stage y) = false := by
  rw [List.any_eq_true] at h1
  rcases h1 with ⟨x, hx, hpx⟩
  by_contra hcon
  rw [Bool.not_eq_false, List.any_eq_true] at hcon
  rcases hcon with ⟨y, hy, hpy⟩
  unfold pyStartswith at hpx hpy
  rcases isPrefixOf_total_of_common hpx hpy with h | h
  · have := (hinc x hx y hy).1
    rw [this] at h
    exact Bool.false_ne_true h
  · have := (hinc x hx y hy).2
    rw [this] at h
    exact Bool.false_ne_true h

/-! ### Claims about the classifier and the display label -/

/-- C1: activity kind derivation is total and deterministic over all strings:
for every string `stage`, `Activity._get_activity_type` returns exactly one of
four kinds, namely the childrens-class label when `stage` begins with a grade
label, `Study Circle` when it begins with a curriculum-book label,
`Junior Youth Group` when it begins with a youth-text title, and
`Unknown Activity Type` otherwise. -/
theorem activity_kind_classification (stage : String) :
    ((∃ g ∈ childrens_class_grades, pyStartswith stage g = true) →
        getActivityTypeCore stage = childrensClassLabel) ∧
    ((∃ b ∈ study_circle_books, pyStartswith stage b = true) →
        getActivityTypeCore stage = "Study Circle") ∧
    ((∃ t ∈ junior_youth_texts, pyStartswith stage t = true) →
        getActivityTypeCore stage = "Junior Youth Group") ∧
    (((¬∃ g ∈ childrens_class_grades, pyStartswith stage g = true) ∧
      (¬∃ b ∈ study_circle_books, pyStartswith stage b = true) ∧
      (¬∃ t ∈ junior_youth_texts, pyStartswith stage t = true)) →
        getActivityTypeCore stage = "Unknown Activity Type") ∧
    (getActivityTypeCore stage = childrensClassLabel ∨
     getActivityTypeCore stage = "Study Circle" ∨
     getActivityTypeCore stage = "Junior Youth Group" ∨
     getActivityTypeCore stage = "Unknown Activity Type") := by
  refine ⟨?_, ?_, ?_, ?_, ?_⟩
  · intro h
    have hg : childrens_class_grades.any (fun g => pyStartswith stage g) = true :=
      List.any_eq_true.mpr h
    have hb := startswith_not_both grades_books_incomparable hg
    have ht := startswith_not_both grades_texts_incomparable hg
    simp [getActivityTypeCore, hb, ht, hg]
  · intro h
    have hb : study_circle_books.any (fun b => pyStartswith stage b) = true :=
      List.any_eq_true.mpr h
    simp [getActivityTypeCore, hb]
  · intro h
    have ht : junior_youth_texts.any (fun t => pyStartswith stage t) = true :=
      List.any_eq_true.mpr h
    have hb := startswith_not_both texts_books_incomparable ht
    simp [getActivityTypeCore, hb, ht]
  · rintro ⟨h1, h2, h3⟩
    have hg : childrens_class_grades.any (fun g => pyStartswith stage g) = false := by
      rw [Bool.eq_false_iff]
      intro hc
      exact h1 (List.any_eq_true.mp hc)
    have hb : study_circle_books.any (fun b => pyStartswith stage b) = false := by
      rw [Bool.eq_false_iff]
      intro hc
      exact h2 (List.any_eq_true.mp hc)
    have ht : junior_youth_texts.any (fun t => pyStartswith stage t) = false := by
      rw [Bool.eq_false_iff]
      intro hc
      exact h3 (List.any_eq_true.mp hc)
    simp [getActivityTypeCore, hg, hb, ht]
  · unfold getActivityTypeCore
    split_ifs
    · exact Or.inr (Or.inl rfl)
    · exact Or.inr (Or.inr (Or.inl rfl))
    · exact Or.inl rfl
    · exact Or.inr (Or.inr (Or.inr rfl))

/-- C1 witness: the classification theorem applied at the concrete stage
string `Grade 3 (children)` classifies it as a childrens class. -/
theorem activity_kind_classification_witness :
    (∃ g ∈ childrens_class_grades, pyStartswith "Grade 3 (children)" g = true) ∧
    getActivityTypeCore "Grade 3 (children)" = childrensClassLabel :=
  ⟨by decide, (activity_kind_classification "Grade 3 (children)").1 (by decide)⟩

/-- C7: for every Activity `a`, `str(a)` is exactly the derived kind, a comma
and space, the stage, a spaced hyphen, and the locality. -/
theorem display_label_roundtrip (a : Activity) :
    a.toStr = a.getActivityType ++ ", " ++ a.stage ++ " - " ++ a.locality := rfl

/-! ### DOM model for the record extractor -/

/-- Python exceptions raised by the extraction code: `ValueError` (unpacking a
list of the wrong length), `KeyError` (a missing attribute subscript such as
`cell["class"]`), `AttributeError` (calling `.text` on a missing child such as
`cell.button`), and `NameError` (reading a local variable that was never
assigned). -/
inductive PyErr where
  | valueError
  | keyError
  | attributeError
  | nameError
deriving DecidableEq, Repr

/-- A `<span>` inside a table cell: its optional `class` attribute and text. -/
structure SpanTag where
  classesAttr : Option (List String)
  text : String
deriving DecidableEq, Repr

/-- A `<td>` cell as inspected by `_parse_person_table`: its `class` attribute
(`cell["class"]` raises `KeyError` when absent), the text of its first
`<button>` child when present, and its first `<span>` child when present. -/
structure Cell where
  classesAttr : Option (List String)
  buttonText : Option String
  span : Option SpanTag
deriving DecidableEq, Repr

/-- A `<tbody>` tag: its optional `data-bind` attribute and its `<tr>` rows,
each a list of `<td>` cells. -/
structure TBody where
  dataBind : Option String
  rows : List (List Cell)
deriving DecidableEq, Repr

/-- An `<h1>` tag: its optional `class` attribute and text. -/
structure Heading where
  classesAttr : Option (List String)
  text : String
deriving DecidableEq, Repr

/-- A `<native-ui-location-field>` tag: its optional `params` attribute and
the texts of all of its `<p>` descendants. -/
structure LocationField where
  params : Option String
  pTexts : List String
deriving DecidableEq, Repr

/-- A `<native-ui-date-field>` tag: its optional `params` attribute and the
text of its first `<p>` descendant when present. -/
structure DateField where
  params : Option String
  pText : Option String
deriving DecidableEq, Repr

/-- A `<p>` tag at page level: its optional `data-bind` attribute and text. -/
structure Para where
  dataBind : Option String
  text : String
deriving DecidableEq, Repr

/-- The parsed page source, as the BeautifulSoup queries in
`ActivityParser.parse` see it: all `<tbody>` tags, all `<h1>` tags, all
location-field and date-field tags, and all `<p>` tags, each list in document
order. -/
structure Page where
  tbodies : List TBody
  headings : List Heading
  locationFields : List LocationField
  dateFields : List DateField
  paragraphs : List Para
deriving DecidableEq, Repr

/-! ### The person-table parser -/

/-- The local variables of the row loop in `_parse_person_table`.  `name` and
`isBahai` are reset to `None` at the top of each row iteration; `current` and
`locality` are function-scoped in Python and so carry over from one row to the
next, `none` meaning the variable was never assigned. -/
structure RowState where
  name : Option String
  isBahai : Option Bool
  currentVar : Option Bool
  localityVar : Option String
deriving DecidableEq, Repr

/-- Whether a cell carries one of the two name-column class markers. -/
def cellHasNameClass (cell : Cell) : Bool :=
  match cell.classesAttr with
  | none => false
  | some cls => cls.contains "basicNameCol" || cls.contains "participantsNameCol"

/-- One iteration of the cell loop of `_parse_person_table`: dispatch on the
class markers of the cell, in the order of the if/elif chain of the source. -/
def processCell (st : RowState) (cell : Cell) : Except PyErr RowState :=
  match cell.classesAttr with
  | none => .error .keyError
  | some cls =>
    if cls.contains "basicIsCurrentCol" || cls.contains "participantsIsCurrentCol" then
      match cell.span with
      | none => .error .attributeError
      | some sp =>
        .ok { st with currentVar := some (match sp.classesAttr with
                        | some scs => scs.contains "checked"
                        | none => false) }
    else if cls.contains "basicNameCol" || cls.contains "participantsNameCol" then
      match cell.buttonText with
      | none => .error .attributeError
      | some t => .ok { st with name := some t }
    else if cls.contains "participantsIsRegisteredBahaiCol" then
      match cell.span with
      | none => .error .attributeError
      | some sp => .ok { st with isBahai := some (sp.text == "Yes") }
    else if cls.contains "basicLocalityCol" || cls.contains "participantsLocalityCol" then
      match cell.buttonText with
      | none => .error .attributeError
      | some t => .ok { st with localityVar := some t }
    else
      .ok st

/-- The cell loop of `_parse_person_table` over one row. -/
def processCells : List Cell → RowState → Except PyErr RowState
  | [], st => .ok st
  | c :: cs, st =>
    match processCell st c with
    | .error e => .error e
    | .ok st1 => processCells cs st1

/-- The state of the row-loop locals at the top of a row iteration: `name`
and `isBahai` are reset to `None`, the function-scoped `current` and
`locality` keep the values left by earlier rows. -/
def initRowState (carryCurrent : Option Bool) (carryLocality : Option String) : RowState :=
  { name := none, isBahai := none, currentVar := carryCurrent, localityVar := carryLocality }

/-- The row loop of `_parse_person_table`.  `carryCurrent` and `carryLocality`
are the values of the function-scoped variables `current` and `locality` left
by earlier rows.  Appending `Person(name, locality, current, isBahai)` reads
`locality` and `current`; if either was never assigned the read raises
`NameError`. -/
def parsePersonRows : List (List Cell) → Option Bool → Option String →
    Except PyErr (List Person)
  | [], _, _ => .ok []
  | r :: rs, carryCurrent, carryLocality =>
    match processCells r (initRowState carryCurrent carryLocality) with
    | .error e => .error e
    | .ok st =>
      match st.localityVar, st.currentVar with
      | some loc, some cur =>
        match parsePersonRows rs (some cur) (some loc) with
        | .error e => .error e
        | .ok people => .ok (⟨st.name, loc, cur, st.isBahai⟩ :: people)
      | _, _ => .error .nameError

/-- `ActivityParser._parse_person_table`: parse a `<tbody>` of people. -/
def parsePersonTable (rows : List (List Cell)) : Except PyErr (List Person) :=
  parsePersonRows rows none none

/-! ### The record extractor -/

/-- The `data-bind` filter used to locate the facilitators and participants
tables: `t.has_attr("data-bind") and t["data-bind"] == bind`. -/
def matchesBind (bind : String) (t : TBody) : Bool :=
  match t.dataBind with
  | some s => s == bind
  | none => false

/-- The `try`/`except ValueError` around table lookup and parsing in
`ActivityParser.parse`: destructure the singleton list of matching tables and
parse it; a `ValueError` (zero or several matching tables) is caught and
yields the empty list, while any other error propagates. -/
def tryPersonTable (bind : String) (tbodies : List TBody) : Except PyErr (List Person) :=
  match (match tbodies.filter (matchesBind bind) with
         | [t] => parsePersonTable t.rows
         | _ => .error .valueError) with
  | .error .valueError => .ok []
  | r => r

/-- The title comprehension
`[t for t in soup.find_all("h1") if "app-screen-title" in t["class"]]`:
subscripting `t["class"]` raises `KeyError` for a heading with no class
attribute. -/
def filterTitles : List Heading → Except PyErr (List Heading)
  | [] => .ok []
  | h :: hs =>
    match h.classesAttr with
    | none => .error .keyError
    | some cls =>
      match filterTitles hs with
      | .error e => .error e
      | .ok rest => .ok (if cls.contains "app-screen-title" then h :: rest else rest)

/-- Locating the unique page-title heading and splitting its text on a literal
comma-space separator into `(stage, locality)`; a non-singleton heading list
or a split of length other than two raises `ValueError`. -/
def titleStage (headings : List Heading) : Except PyErr (String × String) :=
  match filterTitles headings with
  | .error e => .error e
  | .ok [t] =>
    match pySplitCommaSpace t.text with
    | [stage, locality] => .ok (stage, locality)
    | _ => .error .valueError
  | .ok _ => .error .valueError

/-- The neighbourhood loop: for each location field, subscript its `params`
attribute (`KeyError` when absent); when the params contain the
`text: subdivisionName` binding, destructure the singleton list of its `<p>`
descendants (`ValueError` otherwise) and assign `neighbourhood`.  The loop
visits every field, so the last match wins; the accumulator is the current
value of the `neighbourhood` variable, `none` when never assigned. -/
def neighbourhoodStage : List LocationField → Option String → Except PyErr (Option String)
  | [], acc => .ok acc
  | lf :: rest, acc =>
    match lf.params with
    | none => .error .keyError
    | some ps =>
      if pyIn "text: subdivisionName" ps then
        match lf.pTexts with
        | [t] => neighbourhoodStage rest (some t)
        | _ => .error .valueError
      else
        neighbourhoodStage rest acc

/-- The start-date loop: find the first date field whose `params` contain the
`text: displayStartDate` binding and take the text of its first `<p>` child
(`AttributeError` when it has none); `break` after the first match.  Returns
`none` when no field matches, the `start_date` variable staying unassigned. -/
def startDateStage : List DateField → Except PyErr (Option String)
  | [] => .ok none
  | df :: rest =>
    match df.params with
    | none => .error .keyError
    | some ps =>
      if pyIn "text: displayStartDate" ps then
        match df.pText with
        | none => .error .attributeError
        | some t => .ok (some t)
      else
        startDateStage rest

/-- The service-projects loop: scan all `<p>` tags for one whose `data-bind`
equals the `hasServiceProjectsText` binding; guarded by `has_attr`, so it
never raises; the last match wins and absence leaves the default `None`. -/
def serviceProjectsStage (ps : List Para) : Option Bool :=
  ps.foldl (fun acc p =>
    match p.dataBind with
    | some b => if b == "text: hasServiceProjectsText" then some (p.text == "Yes") else acc
    | none => acc) none

/-- `ActivityParser.parse`: run the extraction stages in source order and
build the `Activity`.  The constructor call reads `locality`, `neighbourhood`,
`start_date` and `stage` left to right, so an unassigned `neighbourhood` (and
then an unassigned `start_date`) raises `NameError` there. -/
def parse (page : Page) : Except PyErr Activity :=
  match tryPersonTable "foreach: facilitators" page.tbodies with
  | .error e => .error e
  | .ok facilitators =>
  match tryPersonTable "foreach: participants" page.tbodies with
  | .error e => .error e
  | .ok participants =>
  match titleStage page.headings with
  | .error e => .error e
  | .ok (stage, locality) =>
  match neighbourhoodStage page.locationFields none with
  | .error e => .error e
  | .ok nbhd =>
  match startDateStage page.dateFields with
  | .error e => .error e
  | .ok startDate =>
  match nbhd with
  | none => .error .nameError
  | some neighbourhood =>
  match startDate with
  | none => .error .nameError
  | some start_date =>
    .ok ⟨locality, neighbourhood, start_date, stage, facilitators, participants,
         serviceProjectsStage page.paragraphs⟩

/-! ### C3: rows without a name cell -/

/-- A person table consisting of a single row that has a currently-active cell
and a locality cell but no name cell. -/
def namelessRowTable : List (List Cell) :=
  [[⟨some ["basicIsCurrentCol"], none, some ⟨some ["checked"], ""⟩⟩,
    ⟨some ["basicLocalityCol"], some "Victoria", none⟩]]

/-- C3 counterexample: a row lacking a resolvable name cell is NOT dropped by
`_parse_person_table`; it contributes a `Person` whose name is `None`, so the
output is not the empty list the claim predicts. -/
theorem nameless_row_kept_cex :
    parsePersonTable namelessRowTable =
      .ok [{ name := none, locality := "Victoria", isCurrent := true, isBahai := none }] ∧
    parsePersonTable namelessRowTable ≠ .ok [] := by
  exact ⟨by decide, by decide⟩

/-- A cell without a name-column class marker leaves the `name` variable of
the row loop unchanged. -/
theorem processCell_name_eq {st : RowState} {c : Cell} {st' : RowState}
    (hc : cellHasNameClass c = false) (h : processCell st c = .ok st') :
    st'.name = st.name := by
  unfold processCell at h
  unfold cellHasNameClass at hc
  rcases hcl : c.classesAttr with _ | cls
  · simp only [hcl] at h
    exact absurd h (by simp)
  · simp only [hcl] at h hc
    by_cases h1 : (cls.contains "basicIsCurrentCol" || cls.contains "participantsIsCurrentCol") = true
    · rw [if_pos h1] at h
      rcases hsp : c.span with _ | sp
      · simp only [hsp] at h
        exact absurd h (by simp)
      · simp only [hsp] at h
        cases h
        rfl
    · rw [if_neg h1] at h
      rw [if_neg (by rw [hc]; exact Bool.false_ne_true)] at h
      by_cases h3 : (cls.contains "participantsIsRegisteredBahaiCol") = true
      · rw [if_pos h3] at h
        rcases hsp : c.span with _ | sp
        · simp only [hsp] at h
          exact absurd h (by simp)
        · simp only [hsp] at h
          cases h
          rfl
      · rw [if_neg h3] at h
        by_cases h4 : (cls.contains "basicLocalityCol" || cls.contains "participantsLocalityCol") = true
        · rw [if_pos h4] at h
          rcases hbt : c.buttonText with _ | t
          · simp only [hbt] at h
            exact absurd h (by simp)
          · simp only [hbt] at h
            cases h
            rfl
        · rw [if_neg h4] at h
          cases h
          rfl

/-- A row none of whose cells has a name-column marker leaves `name`
unchanged across the whole cell loop. -/
theorem processCells_name_eq : ∀ (cells : List Cell) (st st' : RowState),
    cells.all (fun c => !cellHasNameClass c) = true →
    processCells cells st = .ok st' → st'.name = st.name := by
  intro cells
  induction cells with
  | nil =>
    intro st st' _ h
    rw [processCells] at h
    cases h
    rfl
  | cons c cs ih =>
    intro st st' hall h
    rw [List.all_cons, Bool.and_eq_true] at hall
    rw [processCells] at h
    rcases hpc : processCell st c with e | st1 <;> simp only [hpc] at h
    · exact absurd h (by simp)
    · have h1 : st1.name = st.name :=
        processCell_name_eq (by simpa using hall.1) hpc
      rw [ih st1 st' hall.2 h, h1]

/-- Structure of a successful `_parse_person_table` run: one `Person` per
`<tr>` row, and a row with no name-column cell produces a `Person` whose
`name` is `None`. -/
theorem parsePersonRows_spec : ∀ (rows : List (List Cell)) (c0 : Option Bool)
    (l0 : Option String) (people : List Person),
    parsePersonRows rows c0 l0 = .ok people →
    people.length = rows.length ∧
    ∀ (i : Nat) (hr : i < rows.length) (hp : i < people.length),
      (rows.get ⟨i, hr⟩).all (fun c => !cellHasNameClass c) = true →
      (people.get ⟨i, hp⟩).name = none := by
  intro rows
  induction rows with
  | nil =>
    intro c0 l0 people h
    rw [parsePersonRows] at h
    cases h
    exact ⟨rfl, fun i hr => absurd hr (Nat.not_lt_zero i)⟩
  | cons r rs ih =>
    intro c0 l0 people h
    rw [parsePersonRows] at h
    rcases hpc : processCells r (initRowState c0 l0) with e | st <;> simp only [hpc] at h
    · exact absurd h (by simp)
    · rcases hl : st.localityVar with _ | loc <;> simp only [hl] at h
      · exact absurd h (by simp)
      · rcases hcur : st.currentVar with _ | cur <;> simp only [hcur] at h
        · exact absurd h (by simp)
        · rcases hrec : parsePersonRows rs (some cur) (some loc) with e | ps <;>
            simp only [hrec] at h
          · exact absurd h (by simp)
          · cases h
            refine ⟨by simp [(ih _ _ _ hrec).1], ?_⟩
            intro i hr hp hall
            cases i with
            | zero =>
              simp only [List.get] at hall ⊢
              exact processCells_name_eq r _ st hall hpc
            | succ j =>
              simp only [List.get] at hall ⊢
              exact (ih _ _ _ hrec).2 j (by simpa using hr) (by simpa using hp) hall

/-- C3 amended: a row lacking a resolvable name cell is not dropped: every
`<tr>` row of the table contributes exactly one `Person`, and the `Person`
built from a row with no name-column cell has a `None` name. -/
theorem nameless_row_yields_none_name (rows : List (List Cell)) (people : List Person)
    (h : parsePersonTable rows = .ok people) :
    people.length = rows.length ∧
    ∀ (i : Nat) (hr : i < rows.length) (hp : i < people.length),
      (rows.get ⟨i, hr⟩).all (fun c => !cellHasNameClass c) = true →
      (people.get ⟨i, hp⟩).name = none :=
  parsePersonRows_spec rows none none people h

/-- C3 amended witness: on the concrete nameless-row table the parse succeeds,
there is one person per row, and the person from the nameless row has a `None`
name. -/
theorem nameless_row_yields_none_name_witness :
    ([({ name := none, locality := "Victoria", isCurrent := true, isBahai := none } : Person)].length
        = namelessRowTable.length) ∧
    (([({ name := none, locality := "Victoria", isCurrent := true, isBahai := none } : Person)].get
        ⟨0, by decide⟩).name = none) :=
  ⟨(nameless_row_yields_none_name namelessRowTable _ (by decide)).1,
   (nameless_row_yields_none_name namelessRowTable _ (by decide)).2 0 (by decide) (by decide)
     (by decide)⟩

/-! ### Shared inversion and table lemmas for the record extractor -/

/-- The predicate of the title comprehension as a boolean on one heading. -/
def isTitleHeading (h : Heading) : Bool :=
  match h.classesAttr with
  | some cls => cls.contains "app-screen-title"
  | none => false

/-- When every heading has a class attribute, the comprehension succeeds and
returns exactly the headings carrying the title marker. -/
theorem filterTitles_ok_of_all_some : ∀ (hs : List Heading),
    (∀ h ∈ hs, h.classesAttr.isSome = true) →
    filterTitles hs = .ok (hs.filter isTitleHeading) := by
  intro hs
  induction hs with
  | nil => intro _; rfl
  | cons h hs ih =>
    intro hsome
    have hh := hsome h (List.mem_cons_self h hs)
    rcases hcl : h.classesAttr with _ | cls
    · rw [hcl] at hh
      simp at hh
    · have ih2 := ih (fun x hx => hsome x (List.mem_cons_of_mem h hx))
      simp only [filterTitles, hcl, ih2, List.filter_cons]
      have hth : isTitleHeading h = cls.contains "app-screen-title" := by
        rw [isTitleHeading, hcl]
      rw [hth]

/-- When the filtered title list is not a singleton, `titleStage` raises
`ValueError`. -/
theorem titleStage_nonunique {headings : List Heading}
    (hsome : ∀ h ∈ headings, h.classesAttr.isSome = true)
    (hcount : (headings.filter isTitleHeading).length ≠ 1) :
    titleStage headings = .error .valueError := by
  unfold titleStage
  rw [filterTitles_ok_of_all_some headings hsome]
  rcases hfl : headings.filter isTitleHeading with _ | ⟨t, rest⟩
  · rfl
  · rcases rest with _ | ⟨t2, rest2⟩
    · exact absurd (by rw [hfl]; simp) hcount
    · rfl

/-- When no table of the filtered list is a singleton match, the caught
`ValueError` yields the empty person list. -/
theorem tryPersonTable_not_single {bind : String} {tbodies : List TBody}
    (h : ∀ t : TBody, tbodies.filter (matchesBind bind) ≠ [t]) :
    tryPersonTable bind tbodies = .ok [] := by
  unfold tryPersonTable
  rcases hfl : tbodies.filter (matchesBind bind) with _ | ⟨t, rest⟩
  · rfl
  · rcases rest with _ | ⟨t2, rest2⟩
    · exact absurd hfl (h t)
    · rfl

/-- When every matching table has zero rows, the stage yields the empty
person list (whether the table is absent, unique, or duplicated). -/
theorem tryPersonTable_all_rows_empty {bind : String} {tbodies : List TBody}
    (h : ∀ t ∈ tbodies, matchesBind bind t = true → t.rows = []) :
    tryPersonTable bind tbodies = .ok [] := by
  unfold tryPersonTable
  rcases hfl : tbodies.filter (matchesBind bind) with _ | ⟨t, rest⟩
  · rfl
  · have htmem : t ∈ tbodies.filter (matchesBind bind) := by
      rw [hfl]
      exact List.mem_cons_self t rest
    rw [List.mem_filter] at htmem
    have hrows : t.rows = [] := h t htmem.1 htmem.2
    rcases rest with _ | ⟨t2, rest2⟩
    · show (match parsePersonTable t.rows with
            | Except.error PyErr.valueError => Except.ok ([] : List Person)
            | r => r) = Except.ok []
      rw [hrows]
      rfl
    · rfl

/-- Inversion of a successful `parse`: every stage succeeded and the activity
is assembled from the stage results. -/
theorem parse_ok_elim {page : Page} {a : Activity} (h : parse page = .ok a) :
    ∃ fs pts st loc nb sd,
      tryPersonTable "foreach: facilitators" page.tbodies = .ok fs ∧
      tryPersonTable "foreach: participants" page.tbodies = .ok pts ∧
      titleStage page.headings = .ok (st, loc) ∧
      neighbourhoodStage page.locationFields none = .ok (some nb) ∧
      startDateStage page.dateFields = .ok (some sd) ∧
      a = ⟨loc, nb, sd, st, fs, pts, serviceProjectsStage page.paragraphs⟩ := by
  unfold parse at h
  rcases hf : tryPersonTable "foreach: facilitators" page.tbodies with e | fs <;>
    simp only [hf] at h
  · exact absurd h (by simp)
  rcases hp : tryPersonTable "foreach: participants" page.tbodies with e | pts <;>
    simp only [hp] at h
  · exact absurd h (by simp)
  rcases ht : titleStage page.headings with e | ⟨st, loc⟩ <;> simp only [ht] at h
  · exact absurd h (by simp)
  rcases hn : neighbourhoodStage page.locationFields none with e | nb <;>
    simp only [hn] at h
  · exact absurd h (by simp)
  rcases hs : startDateStage page.dateFields with e | sd <;> simp only [hs] at h
  · exact absurd h (by simp)
  rcases nb with _ | nb
  · exact absurd h (by simp)
  rcases sd with _ | sd
  · exact absurd h (by simp)
  cases h
  exact ⟨fs, pts, st, loc, nb, sd, rfl, rfl, rfl, rfl, rfl, rfl⟩

/-! ### C4: cardinality of required singletons -/

/-- A facilitators row whose three cells carry a name, the active marker and a
locality. -/
def namedFacilitatorRow : List Cell :=
  [⟨some ["basicNameCol"], some "Alice Example", none⟩,
   ⟨some ["basicIsCurrentCol"], none, some ⟨some ["checked"], ""⟩⟩,
   ⟨some ["basicLocalityCol"], some "Victoria", none⟩]

/-- A minimal well-formed record page: unique title, a neighbourhood-bearing
location field, a start-date field, and no person tables. -/
def baseRecordPage : Page :=
  { tbodies := [],
    headings := [⟨some ["app-screen-title"], "Book 1, Victoria"⟩],
    locationFields := [⟨some "value: location, text: subdivisionName", ["Fernwood"]⟩],
    dateFields := [⟨some "text: displayStartDate", some "Jan 1, 2024"⟩],
    paragraphs := [] }

/-- The base record page with the facilitators table duplicated. -/
def dupFacilitatorsPage : Page :=
  { baseRecordPage with
    tbodies := [⟨some "foreach: facilitators", [namedFacilitatorRow]⟩,
                ⟨some "foreach: facilitators", [namedFacilitatorRow]⟩] }

/-- C4 counterexample: a record with two facilitators tables does NOT fail;
the `ValueError` from destructuring is caught and `parse` returns an Activity
with an empty facilitators sequence. -/
theorem duplicate_tables_swallowed_cex :
    parse dupFacilitatorsPage =
      .ok { locality := "Victoria", neighbourhood := "Fernwood",
            start_date := "Jan 1, 2024", stage := "Book 1",
            facilitators := [], participants := [],
            doing_service_projects := none } := by
  decide

/-- C4 amended: `parse` fails (the `ValueError` propagates) whenever the
page-title heading is not uniquely present; but a duplicated facilitators or
participants table does not raise: the destructuring `ValueError` is caught
and the corresponding sequence is empty instead. -/
theorem title_unique_required :
    (∀ (page : Page),
      (∀ h ∈ page.headings, h.classesAttr.isSome = true) →
      (page.headings.filter isTitleHeading).length ≠ 1 →
      ∀ a, parse page ≠ .ok a) ∧
    (∀ (bind : String) (tbodies : List TBody),
      2 ≤ (tbodies.filter (matchesBind bind)).length →
      tryPersonTable bind tbodies = .ok []) := by
  constructor
  · intro page hsome hcount a hcon
    rcases parse_ok_elim hcon with ⟨fs, pts, st, loc, nb, sd, hf, hp, ht, hn, hs, ha⟩
    rw [titleStage_nonunique hsome hcount] at ht
    exact absurd ht (by simp)
  · intro bind tbodies hlen
    apply tryPersonTable_not_single
    intro t hcon
    rw [hcon] at hlen
    simp at hlen

/-- An activity value with all fields blank. -/
def blankActivity : Activity := ⟨"", "", "", "", [], [], none⟩

/-- A record page with two title headings. -/
def twoTitlesPage : Page :=
  { tbodies := [],
    headings := [⟨some ["app-screen-title"], "Book 1, Victoria"⟩,
                 ⟨some ["app-screen-title"], "Book 2, Victoria"⟩],
    locationFields := [],
    dateFields := [],
    paragraphs := [] }

/-- C4 amended witness: on a concrete page with two title headings, `parse`
does not produce an Activity. -/
theorem title_unique_required_witness :
    parse twoTitlesPage ≠ .ok blankActivity :=
  title_unique_required.1 twoTitlesPage (by decide) (by decide) blankActivity

/-! ### C5: absent or empty person tables -/

/-- The record page with all facilitators and participants tables removed. -/
def dropPersonTables (page : Page) : Page :=
  { page with tbodies := page.tbodies.filter (fun t =>
      !(matchesBind "foreach: facilitators" t) && !(matchesBind "foreach: participants" t)) }

/-- After dropping the person tables, neither `data-bind` filter matches. -/
theorem dropPersonTables_filter_nil (page : Page) :
    (dropPersonTables page).tbodies.filter (matchesBind "foreach: facilitators") = [] ∧
    (dropPersonTables page).tbodies.filter (matchesBind "foreach: participants") = [] := by
  constructor <;>
  · rw [List.filter_eq_nil_iff]
    intro t ht
    simp only [dropPersonTables, List.mem_filter, Bool.and_eq_true, Bool.not_eq_true'] at ht
    simp [ht.2.1, ht.2.2]

/-- C5: if a record parses to an Activity `a`, then the same record with its
facilitators and participants tables absent still parses, producing `a` with
both sequences empty (absence is not an error); and when the tables are
present but contain zero rows, the corresponding sequences of `a` are empty. -/
theorem absent_tables_yield_empty (page : Page) (a : Activity)
    (h : parse page = .ok a) :
    parse (dropPersonTables page) = .ok { a with facilitators := [], participants := [] } ∧
    ((∀ t ∈ page.tbodies, matchesBind "foreach: facilitators" t = true → t.rows = []) →
        a.facilitators = []) ∧
    ((∀ t ∈ page.tbodies, matchesBind "foreach: participants" t = true → t.rows = []) →
        a.participants = []) := by
  rcases parse_ok_elim h with ⟨fs, pts, st, loc, nb, sd, hf, hp, ht, hn, hs, ha⟩
  subst ha
  refine ⟨?_, ?_, ?_⟩
  · have hdf : tryPersonTable "foreach: facilitators" (dropPersonTables page).tbodies = .ok [] :=
      tryPersonTable_not_single (fun t hcon => by
        rw [(dropPersonTables_filter_nil page).1] at hcon
        cases hcon)
    have hdp : tryPersonTable "foreach: participants" (dropPersonTables page).tbodies = .ok [] :=
      tryPersonTable_not_single (fun t hcon => by
        rw [(dropPersonTables_filter_nil page).2] at hcon
        cases hcon)
    have ht2 : titleStage (dropPersonTables page).headings = .ok (st, loc) := ht
    have hn2 : neighbourhoodStage (dropPersonTables page).locationFields none = .ok (some nb) := hn
    have hs2 : startDateStage (dropPersonTables page).dateFields = .ok (some sd) := hs
    simp only [parse, hdf, hdp, ht2, hn2, hs2]
    rfl
  · intro hrows
    have h0 := tryPersonTable_all_rows_empty hrows
    exact Except.ok.inj (hf.symm.trans h0)
  · intro hrows
    have h0 := tryPersonTable_all_rows_empty hrows
    exact Except.ok.inj (hp.symm.trans h0)

/-- The base record page with one facilitators table holding one named row. -/
def facTablePage : Page :=
  { baseRecordPage with
    tbodies := [⟨some "foreach: facilitators", [namedFacilitatorRow]⟩] }

/-- C5 witness: dropping the facilitators table of a concrete parsing record
yields the same Activity with an empty facilitators sequence, not an error. -/
theorem absent_tables_yield_empty_witness :
    parse (dropPersonTables facTablePage) =
      .ok { locality := "Victoria", neighbourhood := "Fernwood",
            start_date := "Jan 1, 2024", stage := "Book 1",
            facilitators := [], participants := [],
            doing_service_projects := none } :=
  (absent_tables_yield_empty facTablePage
    { locality := "Victoria", neighbourhood := "Fernwood",
      start_date := "Jan 1, 2024", stage := "Book 1",
      facilitators := [{ name := some "Alice Example", locality := "Victoria",
                         isCurrent := true, isBahai := none }],
      participants := [], doing_service_projects := none } (by decide)).1

/-! ### C10: missing neighbourhood binding -/

/-- When no location field references the subdivision-name binding, the
neighbourhood loop either raises `KeyError` (a field without `params`) or
leaves the `neighbourhood` variable exactly as it started. -/
theorem neighbourhoodStage_no_ref : ∀ (lfs : List LocationField) (acc : Option String),
    (∀ lf ∈ lfs, ∀ ps, lf.params = some ps →
      pyIn "text: subdivisionName" ps = false) →
    neighbourhoodStage lfs acc = .error .keyError ∨ neighbourhoodStage lfs acc = .ok acc := by
  intro lfs
  induction lfs with
  | nil =>
    intro acc _
    right
    rfl
  | cons lf rest ih =>
    intro acc h
    rcases hps : lf.params with _ | ps
    · left
      simp [neighbourhoodStage, hps]
    · have hno : pyIn "text: subdivisionName" ps = false :=
        h lf (List.mem_cons_self lf rest) ps hps
      have hrec := ih acc (fun x hx => h x (List.mem_cons_of_mem lf hx))
      simp only [neighbourhoodStage, hps, hno, Bool.false_eq_true, if_false]
      exact hrec

/-- As above, and when every location field has a `params` attribute there is
no `KeyError` either: the loop returns the unchanged accumulator. -/
theorem neighbourhoodStage_no_ref_ok : ∀ (lfs : List LocationField) (acc : Option String),
    (∀ lf ∈ lfs, ∀ ps, lf.params = some ps →
      pyIn "text: subdivisionName" ps = false) →
    (∀ lf ∈ lfs, lf.params.isSome = true) →
    neighbourhoodStage lfs acc = .ok acc := by
  intro lfs
  induction lfs with
  | nil =>
    intro acc _ _
    rfl
  | cons lf rest ih =>
    intro acc h hsome
    rcases hps : lf.params with _ | ps
    · have := hsome lf (List.mem_cons_self lf rest)
      rw [hps] at this
      simp at this
    · have hno : pyIn "text: subdivisionName" ps = false :=
        h lf (List.mem_cons_self lf rest) ps hps
      have hrec := ih acc (fun x hx => h x (List.mem_cons_of_mem lf hx))
        (fun x hx => hsome x (List.mem_cons_of_mem lf hx))
      simp only [neighbourhoodStage, hps, hno, Bool.false_eq_true, if_false]
      exact hrec

/-- C10: when no location field references the `subdivisionName` binding,
`parse` never returns an Activity (the `neighbourhood` variable is never
bound, so no empty-string or carried-over value is substituted), and when
every other stage succeeds the failure is precisely the `NameError` raised
when the Activity constructor reads the unbound variable. -/
theorem neighbourhood_unbound_fails (page : Page)
    (h : ∀ lf ∈ page.locationFields, ∀ ps, lf.params = some ps →
           pyIn "text: subdivisionName" ps = false) :
    (∀ a, parse page ≠ .ok a) ∧
    (∀ fs pts st loc sd,
        tryPersonTable "foreach: facilitators" page.tbodies = .ok fs →
        tryPersonTable "foreach: participants" page.tbodies = .ok pts →
        titleStage page.headings = .ok (st, loc) →
        startDateStage page.dateFields = .ok sd →
        (∀ lf ∈ page.locationFields, lf.params.isSome = true) →
        parse page = .error .nameError) := by
  constructor
  · intro a hcon
    rcases parse_ok_elim hcon with ⟨fs, pts, st, loc, nb, sd, hf, hp, ht, hn, hs, ha⟩
    rcases neighbourhoodStage_no_ref page.locationFields none h with h0 | h0 <;>
      rw [h0] at hn <;> exact absurd hn (by simp)
  · intro fs pts st loc sd hf hp ht hs hsome
    have hn := neighbourhoodStage_no_ref_ok page.locationFields none h hsome
    simp only [parse, hf, hp, ht, hn, hs]

/-- The base record page with its location fields removed. -/
def noLocationFieldPage : Page := { baseRecordPage with locationFields := [] }

/-- C10 witness: the concrete record without a subdivision-name location field
fails with the `NameError` of the unbound `neighbourhood` variable. -/
theorem neighbourhood_unbound_fails_witness :
    parse noLocationFieldPage = .error .nameError :=
  (neighbourhood_unbound_fails noLocationFieldPage
      (by intro lf hlf; exact absurd hlf (List.not_mem_nil lf))).2
    [] [] "Book 1" "Victoria" (some "Jan 1, 2024")
    (by decide) (by decide) (by decide) (by decide)
    (by intro lf hlf; exact absurd hlf (List.not_mem_nil lf))

/-! ### The SRPO navigation layer: link classifier and pagination -/

/-- `SRPO.__init__` grade labels (same comprehension as the parser). -/
def srpo_childrens_class_grades : List String :=
  (List.range' 1 6).map (fun x => "Grade " ++ toString x)

/-- `SRPO.__init__` book labels: unlike the parser lists, each carries a
trailing comma (`f"Book {x},"`, `f"Book {x} (U{y}),"`) so that e.g.
`Book 1,` does not prefix-match the label of Book 10. -/
def srpo_study_circle_books : List String :=
  (List.range' 1 7).map (fun x => "Book " ++ toString x ++ ",") ++
    (List.range' 8 7).flatMap (fun x =>
      (List.range' 1 3).map (fun y =>
        "Book " ++ toString x ++ " (U" ++ toString y ++ "),"))

/-- `SRPO.__init__` youth texts: the same twelve literal titles as the parser
class attribute. -/
def srpo_junior_youth_texts : List String := junior_youth_texts

/-- `SRPO.all_activity_prefixes`. -/
def srpo_all_activity_prefixes : List String :=
  srpo_childrens_class_grades ++ srpo_study_circle_books ++ srpo_junior_youth_texts

/-- An `<a>` element of the activities listing: its accessible name, and the
record page that opens when the link is clicked (what
`_retrieve_activity` passes to the parser after the click). -/
structure Anchor where
  accessibleName : String
  recordPage : Page
deriving DecidableEq, Repr

/-- `SRPO._get_activity_links`: keep the anchors whose accessible name starts
with one of the fixed activity prefixes (the inner loop with `break` is a
first-match membership test). -/
def getActivityLinks (anchors : List Anchor) : List Anchor :=
  anchors.filter (fun a =>
    srpo_all_activity_prefixes.any (fun p => pyStartswith a.accessibleName p))

/-- `SRPO._retrieve_activity`: open the record behind the link and parse the
rendered page source. -/
def retrieveActivity (a : Anchor) : Except PyErr Activity :=
  parse a.recordPage

/-- Sequencing of a loop that appends one result per element and lets the
first exception abort the whole loop. -/
def mapE (f : α → Except ε β) : List α → Except ε (List β)
  | [] => .ok []
  | x :: xs =>
    match f x with
    | .error e => .error e
    | .ok y =>
      match mapE f xs with
      | .error e => .error e
      | .ok ys => .ok (y :: ys)

/-- The page loop of `SRPO.get_activities` over the successive listing pages
(each page given as its anchors in DOM order): process the links of the
current page, then stop if the next-page control carries the disabled marker
(exactly on the last page) and otherwise click it and continue.  Returns the
accumulated activities and the number of next-page clicks. -/
def getActivitiesRun : List (List Anchor) → Except PyErr (List Activity × Nat)
  | [] => .ok ([], 0)
  | [p] =>
    match mapE retrieveActivity (getActivityLinks p) with
    | .error e => .error e
    | .ok acts => .ok (acts, 0)
  | p :: q :: rest =>
    match mapE retrieveActivity (getActivityLinks p) with
    | .error e => .error e
    | .ok acts =>
      match getActivitiesRun (q :: rest) with
      | .error e => .error e
      | .ok (more, clicks) => .ok (acts ++ more, clicks + 1)

/-- A successful `mapE` run produces one output per input. -/
theorem mapE_ok_length {f : α → Except ε β} : ∀ {l : List α} {ys : List β},
    mapE f l = .ok ys → ys.length = l.length := by
  intro l
  induction l with
  | nil =>
    intro ys h
    cases h
    rfl
  | cons x xs ih =>
    intro ys h
    rw [mapE] at h
    rcases hx : f x with e | y <;> simp only [hx] at h
    · exact absurd h (by simp)
    · rcases hxs : mapE f xs with e | ys2 <;> simp only [hxs] at h
      · exact absurd h (by simp)
      · cases h
        simp [ih hxs]

/-- When every element maps successfully, `mapE` succeeds. -/
theorem mapE_ok_of_all {f : α → Except ε β} : ∀ {l : List α},
    (∀ a ∈ l, ∃ y, f a = .ok y) → ∃ ys, mapE f l = .ok ys := by
  intro l
  induction l with
  | nil =>
    intro _
    exact ⟨[], rfl⟩
  | cons x xs ih =>
    intro h
    rcases h x (List.mem_cons_self x xs) with ⟨y, hy⟩
    rcases ih (fun a ha => h a (List.mem_cons_of_mem x ha)) with ⟨ys, hys⟩
    refine ⟨y :: ys, ?_⟩
    rw [mapE, hy, hys]

/-- `mapE` over a cons whose head and tail both succeed. -/
theorem mapE_cons_ok {f : α → Except ε β} {x : α} {xs : List α} {y : β} {ys : List β}
    (hx : f x = .ok y) (hxs : mapE f xs = .ok ys) :
    mapE f (x :: xs) = .ok (y :: ys) := by
  rw [mapE, hx, hxs]

/-- The page loop on a non-final page whose links and remaining pages both
succeed. -/
theorem getActivitiesRun_cons_ok {p q : List Anchor} {rest : List (List Anchor)}
    {acts more : List Activity} {clicks : Nat}
    (hp : mapE retrieveActivity (getActivityLinks p) = .ok acts)
    (hrec : getActivitiesRun (q :: rest) = .ok (more, clicks)) :
    getActivitiesRun (p :: q :: rest) = .ok (acts ++ more, clicks + 1) := by
  simp only [getActivitiesRun, hp, hrec]

/-- C2: with N pages of k activity links each and the disabled marker on the
final page only, `get_activities` processes links in DOM order within each
page and pages in forward order, returns exactly N*k activities, and clicks
the next-page control exactly N-1 times. -/
theorem pagination_yields_all : ∀ (pages : List (List Anchor)) (k : Nat),
    pages ≠ [] →
    (∀ p ∈ pages, (getActivityLinks p).length = k) →
    (∀ p ∈ pages, ∀ a ∈ getActivityLinks p, ∃ act, parse a.recordPage = .ok act) →
    ∃ pageActs : List (List Activity),
      mapE (fun p => mapE retrieveActivity (getActivityLinks p)) pages = .ok pageActs ∧
      getActivitiesRun pages = .ok (pageActs.flatten, pages.length - 1) ∧
      pageActs.flatten.length = pages.length * k := by
  intro pages
  induction pages with
  | nil =>
    intro k hne _ _
    exact absurd rfl hne
  | cons p rest ih =>
    intro k _ hk hok
    have hex : ∀ a ∈ getActivityLinks p, ∃ y, retrieveActivity a = .ok y :=
      fun a ha => hok p (List.mem_cons_self p rest) a ha
    rcases mapE_ok_of_all hex with ⟨acts, hacts⟩
    have hlen : acts.length = k := by
      rw [mapE_ok_length hacts, hk p (List.mem_cons_self p rest)]
    cases rest with
    | nil =>
      refine ⟨[acts], mapE_cons_ok hacts rfl, ?_, ?_⟩
      · simp only [getActivitiesRun, hacts]
        simp
      · simp [hlen]
    | cons q rest2 =>
      rcases ih k (by simp) (fun x hx => hk x (List.mem_cons_of_mem p hx))
        (fun x hx => hok x (List.mem_cons_of_mem p hx)) with ⟨pageActs, hmap, hrun, hjoin⟩
      refine ⟨acts :: pageActs, mapE_cons_ok hacts hmap, ?_, ?_⟩
      · rw [getActivitiesRun_cons_ok hacts hrun, List.flatten_cons]
        simp
      · rw [List.flatten_cons, List.length_append, hlen, hjoin]
        simp only [List.length_cons]
        ring

/-- A listing anchor for the base record. -/
def anchor1 : Anchor := ⟨"Book 1, Victoria", baseRecordPage⟩

/-- A listing anchor for the record holding a facilitators table. -/
def anchor2 : Anchor := ⟨"Grade 2 Class", facTablePage⟩

/-- The activity extracted from the base record page. -/
def book1Activity : Activity :=
  { locality := "Victoria", neighbourhood := "Fernwood", start_date := "Jan 1, 2024",
    stage := "Book 1", facilitators := [], participants := [],
    doing_service_projects := none }

/-- The activity extracted from the record page with a facilitators table. -/
def facTableActivity : Activity :=
  { book1Activity with
    facilitators := [{ name := some "Alice Example", locality := "Victoria",
                       isCurrent := true, isBahai := none }] }

/-- C2 witness: the pagination theorem applied to a concrete two-page listing
with one activity link per page: two activities, one next-page click. -/
theorem pagination_yields_all_witness :
    ∃ pageActs : List (List Activity),
      mapE (fun p => mapE retrieveActivity (getActivityLinks p))
          [[anchor1], [anchor2]] = .ok pageActs ∧
      getActivitiesRun [[anchor1], [anchor2]] = .ok (pageActs.flatten, 2 - 1) ∧
      pageActs.flatten.length = 2 * 1 :=
  pagination_yields_all [[anchor1], [anchor2]] 1 (by simp) (by decide)
    (by
      intro p hp a ha
      rcases List.mem_cons.mp hp with rfl | hp2
      · rw [show getActivityLinks [anchor1] = [anchor1] from by decide] at ha
        rcases List.mem_singleton.mp ha with rfl
        exact ⟨book1Activity, by decide⟩
      · rcases List.mem_cons.mp hp2 with rfl | hp3
        · rw [show getActivityLinks [anchor2] = [anchor2] from by decide] at ha
          rcases List.mem_singleton.mp ha with rfl
          exact ⟨facTableActivity, by decide⟩
        · exact absurd hp3 (List.not_mem_nil p))

/-! ### C9: failure loses results unless captured through the callback -/

/-- Modelled from the spec: `SRPO.set_activity_cb` and the per-record callback
invocation inside `get_activities` are missing from `src/srpo.py` (only the
caller is present: `gen_pdfs.py` registers `PDFGen.activity_cb` through
`srpo.set_activity_cb`).  Per the specification, the caller captures records
incrementally via a callback invoked as each record completes.  This is the
link loop of one listing page: each successfully extracted Activity is passed
to the registered callback before the next link is opened; the second
component of the result is the sequence of callback invocations, and the
first is the value returned to (or the exception raised at) the caller. -/
def processLinksCb : List Anchor → Except PyErr (List Activity) × List Activity
  | [] => (.ok [], [])
  | a :: rest =>
    match parse a.recordPage with
    | .error e => (.error e, [])
    | .ok act =>
      match processLinksCb rest with
      | (.error e, cbs) => (.error e, act :: cbs)
      | (.ok acts, cbs) => (.ok (act :: acts), act :: cbs)

/-- Modelled from the spec: the page loop of `get_activities` with the
per-record callback of `SRPO.set_activity_cb` (missing from `src/srpo.py`)
threaded through, pages and links processed in forward order as in
`getActivitiesRun`. -/
def getActivitiesCb : List (List Anchor) → Except PyErr (List Activity) × List Activity
  | [] => (.ok [], [])
  | [p] => processLinksCb (getActivityLinks p)
  | p :: q :: rest =>
    match processLinksCb (getActivityLinks p) with
    | (.error e, cbs) => (.error e, cbs)
    | (.ok acts, cbs) =>
      match getActivitiesCb (q :: rest) with
      | (.error e, cbs2) => (.error e, cbs ++ cbs2)
      | (.ok acts2, cbs2) => (.ok (acts ++ acts2), cbs ++ cbs2)

/-- The link loop distributes over list append. -/
theorem processLinksCb_append : ∀ (xs ys : List Anchor),
    processLinksCb (xs ++ ys) =
      (match processLinksCb xs with
       | (.error e, cbs) => (.error e, cbs)
       | (.ok acts, cbs) =>
         match processLinksCb ys with
         | (.error e, cbs2) => (.error e, cbs ++ cbs2)
         | (.ok acts2, cbs2) => (.ok (acts ++ acts2), cbs ++ cbs2)) := by
  intro xs ys
  induction xs with
  | nil =>
    rcases hy : processLinksCb ys with ⟨ry, cby⟩
    rcases ry with ey | ay <;> simp [processLinksCb, hy]
  | cons a xs ih =>
    rcases hpa : parse a.recordPage with e | act
    · simp only [List.cons_append, processLinksCb, hpa]
    · rcases hx : processLinksCb xs with ⟨rx, cbx⟩
      rw [hx] at ih
      rcases hy : processLinksCb ys with ⟨ry, cby⟩
      rw [hy] at ih
      rcases rx with ex | ax <;> rcases ry with ey | ay <;>
        simp only at ih <;>
        simp only [List.cons_append, processLinksCb, hpa, List.append_eq, ih, hx, hy]

/-- On a non-empty listing, the page loop with callback behaves as the link
loop over the concatenation of all pages' links. -/
theorem getActivitiesCb_flatten : ∀ (pages : List (List Anchor)), pages ≠ [] →
    getActivitiesCb pages = processLinksCb ((pages.map getActivityLinks).flatten) := by
  intro pages
  induction pages with
  | nil =>
    intro h
    exact absurd rfl h
  | cons p rest ih =>
    intro _
    cases rest with
    | nil =>
      simp only [getActivitiesCb, List.map_cons, List.map_nil, List.flatten_cons,
        List.flatten_nil, List.append_nil]
    | cons q rest2 =>
      simp only [List.map_cons, List.flatten_cons]
      rw [processLinksCb_append]
      simp only [getActivitiesCb, ih (by simp), List.map_cons, List.flatten_cons]

/-- The link loop on a run whose first `m` records extract successfully and
whose record `m` fails: the result is the exception (no activities are
returned), and the callback received exactly the `m` completed records. -/
theorem processLinksCb_partial_fail : ∀ (links : List Anchor) (m : Nat)
    (hm : m < links.length),
    (∀ (i : Nat) (hi : i < m), ∃ act,
        parse ((links.get ⟨i, Nat.lt_trans hi hm⟩).recordPage) = .ok act) →
    (∀ act, parse ((links.get ⟨m, hm⟩).recordPage) ≠ .ok act) →
    ∃ e cbs, processLinksCb links = (.error e, cbs) ∧ cbs.length = m ∧
      mapE retrieveActivity (links.take m) = .ok cbs := by
  intro links
  induction links with
  | nil =>
    intro m hm
    exact absurd hm (by simp)
  | cons a rest ih =>
    intro m hm hok hfail
    cases m with
    | zero =>
      rcases hpa : parse a.recordPage with e | act
      · refine ⟨e, [], ?_, rfl, rfl⟩
        simp only [processLinksCb, hpa]
      · exact absurd hpa (hfail act)
    | succ j =>
      rcases hok 0 (Nat.succ_pos j) with ⟨act0, hact0⟩
      have hpa : parse a.recordPage = .ok act0 := hact0
      have hj : j < rest.length := Nat.lt_of_succ_lt_succ hm
      rcases ih j hj (fun i hi => hok (i + 1) (Nat.succ_lt_succ hi))
        (fun act hcon => hfail act hcon) with ⟨e, cbs, hpl, hlen, hmap⟩
      refine ⟨e, act0 :: cbs, ?_, by simp [hlen], ?_⟩
      · simp only [processLinksCb, hpa, hpl]
      · rw [List.take_succ_cons]
        exact mapE_cons_ok hpa hmap

/-- C9: when a run of `get_activities` fails after `m` records were
extracted, the caller receives the exception and none of the extracted
records, while the registered per-record callback was invoked with exactly
those `m` records, in order. -/
theorem failure_captured_by_callback (pages : List (List Anchor)) (m : Nat)
    (hm : m < ((pages.map getActivityLinks).flatten).length)
    (hok : ∀ (i : Nat) (hi : i < m), ∃ act,
        parse ((((pages.map getActivityLinks).flatten).get
          ⟨i, Nat.lt_trans hi hm⟩).recordPage) = .ok act)
    (hfail : ∀ act,
        parse ((((pages.map getActivityLinks).flatten).get ⟨m, hm⟩).recordPage) ≠ .ok act) :
    ∃ e cbs,
      getActivitiesCb pages = (.error e, cbs) ∧
      cbs.length = m ∧
      mapE retrieveActivity (((pages.map getActivityLinks).flatten).take m) = .ok cbs := by
  have hne : pages ≠ [] := by
    intro h
    subst h
    simp at hm
  rw [getActivitiesCb_flatten pages hne]
  exact processLinksCb_partial_fail _ m hm hok hfail

/-- An anchor whose record page is malformed (two title headings). -/
def badAnchor : Anchor := ⟨"Grade 1 Class", twoTitlesPage⟩

/-- C9 witness: one page with a good link followed by a failing link. The run
returns an exception and only the callback saw the one completed record. -/
theorem failure_captured_by_callback_witness :
    ∃ e cbs,
      getActivitiesCb [[anchor1, badAnchor]] = (.error e, cbs) ∧
      cbs.length = 1 ∧
      mapE retrieveActivity
        ((([[anchor1, badAnchor]].map getActivityLinks).flatten).take 1) = .ok cbs :=
  failure_captured_by_callback [[anchor1, badAnchor]] 1 (by decide)
    (by
      intro i hi
      have h0 : i = 0 := by omega
      subst h0
      have hv : parse (((([[anchor1, badAnchor]].map getActivityLinks).flatten).get
          ⟨0, by decide⟩).recordPage) = Except.ok book1Activity := by decide
      exact ⟨book1Activity, hv⟩)
    (by
      intro act hcon
      have hval : parse (((([[anchor1, badAnchor]].map getActivityLinks).flatten).get
          ⟨1, by decide⟩).recordPage) = Except.error PyErr.valueError := by decide
      exact absurd (hval.symm.trans hcon) (by simp))

/-! ### C6: the wait primitive `find_element` -/

/-- A rendered element as seen through the web driver: its accessible name
and text.  `elemId` models object identity of distinct rendered elements that
may carry equal strings. -/
structure Element where
  accessibleName : String
  text : String
  elemId : Nat
deriving DecidableEq, Repr

/-- Python `s.encode("ascii", "ignore").decode()`: drop every character above
the ASCII range. -/
def stripNonAscii (s : String) : String :=
  String.mk (s.toList.filter (fun c => c.toNat ≤ 127))

/-- The characters Python `str.strip()` removes (after the ASCII filter only
ASCII whitespace can remain). -/
def isPyWhitespace (c : Char) : Bool :=
  c = ' ' || c = Char.ofNat 9 || c = Char.ofNat 10 || c = Char.ofNat 13 ||
    c = Char.ofNat 11 || c = Char.ofNat 12

/-- Python `str.strip()`: drop leading and trailing whitespace. -/
def pyStrip (s : String) : String :=
  String.mk (((s.toList.dropWhile isPyWhitespace).reverse.dropWhile isPyWhitespace).reverse)

/-- The accessible-name normalization of `find_element.__call__`:
`e.accessible_name.encode("ascii", "ignore").decode().strip()`. -/
def cleanAccessibleName (s : String) : String :=
  pyStrip (stripNonAscii s)

/-- The `find_element` waiter object: target tag, optional accessible name,
optional text, and the comparison function. -/
structure FindElement where
  tag_name : String
  name : Option String
  text : Option String
  comparator : String → String → Bool

/-- `find_element.__init__`: a `None` comparator defaults to equality. -/
def FindElement.init (tag_name : String) (name text : Option String)
    (comparator : Option (String → String → Bool)) : FindElement :=
  ⟨tag_name, name, text, comparator.getD (fun s1 s2 => s1 == s2)⟩

/-- The per-element test of the `__call__` loop: `matches_name` holds when no
name was supplied or the comparator accepts the normalized accessible name,
`matches_text` likewise for the text. -/
def FindElement.matchesCriteria (fe : FindElement) (e : Element) : Bool :=
  (match fe.name with
   | none => true
   | some n => fe.comparator (cleanAccessibleName e.accessibleName) n) &&
  (match fe.text with
   | none => true
   | some t => fe.comparator e.text t)

/-- `find_element.__call__` over the rendered elements of the requested tag:
return the first element matching all supplied criteria, or a falsy result. -/
def FindElement.call : FindElement → List Element → Option Element
  | _, [] => none
  | fe, e :: rest => if fe.matchesCriteria e then some e else FindElement.call fe rest

/-- The matching criterion in the words of the specification: all supplied
criteria hold under the comparison function, the accessible name normalized
by removing non-ASCII characters and stripping surrounding whitespace.
(Stated from the spec, for comparison with `FindElement.matchesCriteria`,
which is translated from the code.) -/
def specCriterion (name? text? : Option String) (cmp : String → String → Bool)
    (e : Element) : Bool :=
  (match name? with
   | none => true
   | some n => cmp (pyStrip (stripNonAscii e.accessibleName)) n) &&
  (match text? with
   | none => true
   | some t => cmp e.text t)

/-- The code-side criterion of a constructed waiter coincides with the
specification-side criterion under the defaulted comparator. -/
theorem matchesCriteria_init (tag : String) (name? text? : Option String)
    (cmp? : Option (String → String → Bool)) (e : Element) :
    (FindElement.init tag name? text? cmp?).matchesCriteria e =
      specCriterion name? text? (cmp?.getD (fun a b => a == b)) e := rfl

/-- C6: `find_element` returns the first rendered element (in enumeration
order) satisfying every supplied criterion under the comparator, the
accessible name normalized first, and a falsy result exactly when no element
satisfies them; the comparator defaults to exact equality. -/
theorem find_element_first_match (tag : String) (name? text? : Option String)
    (cmp? : Option (String → String → Bool)) : ∀ (els : List Element),
    (∀ e, (FindElement.init tag name? text? cmp?).call els = some e →
       ∃ (i : Nat) (hi : i < els.length), els.get ⟨i, hi⟩ = e ∧
         specCriterion name? text? (cmp?.getD (fun a b => a == b)) e = true ∧
         ∀ (j : Nat) (hj : j < els.length), j < i →
           specCriterion name? text? (cmp?.getD (fun a b => a == b))
             (els.get ⟨j, hj⟩) = false) ∧
    ((FindElement.init tag name? text? cmp?).call els = none ↔
       ∀ e ∈ els, specCriterion name? text? (cmp?.getD (fun a b => a == b)) e = false) := by
  intro els
  induction els with
  | nil =>
    constructor
    · intro e h
      simp [FindElement.call] at h
    · simp [FindElement.call]
  | cons e els ih =>
    cases hcrit : (FindElement.init tag name? text? cmp?).matchesCriteria e with
    | true =>
      constructor
      · intro e' h
        simp only [FindElement.call, hcrit, if_true] at h
        cases h
        refine ⟨0, by simp, rfl, ?_, ?_⟩
        · rw [← matchesCriteria_init tag name? text? cmp?]
          exact hcrit
        · intro j hj hlt
          exact absurd hlt (Nat.not_lt_zero j)
      · constructor
        · intro h
          simp only [FindElement.call, hcrit, if_true] at h
          exact absurd h (by simp)
        · intro hall
          have := hall e (List.mem_cons_self e els)
          rw [← matchesCriteria_init tag name? text? cmp?] at this
          rw [this] at hcrit
          cases hcrit
    | false =>
      have hstep : (FindElement.init tag name? text? cmp?).call (e :: els) =
          (FindElement.init tag name? text? cmp?).call els := by
        simp [FindElement.call, hcrit]
      constructor
      · intro e' h
        rw [hstep] at h
        rcases ih.1 e' h with ⟨i, hi, hget, hc, hfirst⟩
        refine ⟨i + 1, Nat.succ_lt_succ hi, ?_, hc, ?_⟩
        · exact hget
        · intro j hj hlt
          cases j with
          | zero =>
            show specCriterion name? text? (cmp?.getD (fun a b => a == b)) e = false
            rw [← matchesCriteria_init tag name? text? cmp?]
            exact hcrit
          | succ j' =>
            have hj' : j' < els.length := Nat.lt_of_succ_lt_succ hj
            exact hfirst j' hj' (Nat.lt_of_succ_lt_succ hlt)
      · rw [hstep]
        constructor
        · intro h e' he'
          rcases List.mem_cons.mp he' with rfl | hmem
          · rw [← matchesCriteria_init tag name? text? cmp?]
            exact hcrit
          · exact (ih.2.mp h) e' hmem
        · intro hall
          exact ih.2.mpr (fun x hx => hall x (List.mem_cons_of_mem e hx))

/-- C6 witness: a waiter for accessible name `Login` over two rendered
buttons, the second carrying a non-ASCII, whitespace-padded name that
normalizes to `Login`: the second element is returned; and over a list with
no match the falsy result comes back. -/
theorem find_element_first_match_witness :
    ((FindElement.init "button" (some "Login") none none).call
        [⟨"Cancel", "", 0⟩, ⟨" Login® ", "", 1⟩] = none ↔
      ∀ e ∈ [(⟨"Cancel", "", 0⟩ : Element), ⟨" Login® ", "", 1⟩],
        specCriterion (some "Login") none ((none : Option (String → String → Bool)).getD
          (fun a b => a == b)) e = false) ∧
    (FindElement.init "button" (some "Login") none none).call
        [⟨"Cancel", "", 0⟩, ⟨" Login® ", "", 1⟩] = some ⟨" Login® ", "", 1⟩ :=
  ⟨(find_element_first_match "button" (some "Login") none none
      [⟨"Cancel", "", 0⟩, ⟨" Login® ", "", 1⟩]).2,
   by decide⟩

/-! ### C8: scope selection clicks the deepest matching span -/

/-- A rendered `<span>` of the area tree: its text and the vertical position
`location["y"]`.  `spanId` models object identity. -/
structure SpanElement where
  text : String
  y : Int
  spanId : Nat
deriving DecidableEq, Repr

/-- Python `max(l, key=lambda span: span.location["y"])`: `None` on an empty
list (a `ValueError` in Python), otherwise the first item with the maximal
key. -/
def pyMaxByY : List SpanElement → Option SpanElement
  | [] => none
  | s :: rest => some (rest.foldl (fun best t => if t.y > best.y then t else best) s)

/-- The click target of `SRPO.set_area`: among the spans whose text equals
the requested area, the one with the greatest vertical offset. -/
def setAreaClickTarget (spans : List SpanElement) (area : String) : Option SpanElement :=
  pyMaxByY (spans.filter (fun span => span.text == area))

/-- The running maximum of the fold is one of the candidates and dominates
the seed and every element. -/
theorem foldl_maxY_spec : ∀ (l : List SpanElement) (b : SpanElement),
    (l.foldl (fun best t => if t.y > best.y then t else best) b) ∈ b :: l ∧
    b.y ≤ (l.foldl (fun best t => if t.y > best.y then t else best) b).y ∧
    ∀ t ∈ l, t.y ≤ (l.foldl (fun best t => if t.y > best.y then t else best) b).y := by
  intro l
  induction l with
  | nil =>
    intro b
    exact ⟨by simp, le_refl _, by simp⟩
  | cons t l ih =>
    intro b
    rw [List.foldl_cons]
    by_cases hgt : t.y > b.y
    · rw [if_pos hgt]
      rcases ih t with ⟨hmem, hb, hall⟩
      refine ⟨List.mem_cons_of_mem b hmem, le_trans (le_of_lt hgt) hb, ?_⟩
      intro u hu
      rcases List.mem_cons.mp hu with rfl | h
      · exact hb
      · exact hall u h
    · rw [if_neg hgt]
      have hle : t.y ≤ b.y := le_of_not_lt hgt
      rcases ih b with ⟨hmem, hb, hall⟩
      refine ⟨?_, hb, ?_⟩
      · rcases List.mem_cons.mp hmem with h | h
        · rw [h]
          exact List.mem_cons_self b (t :: l)
        · exact List.mem_cons_of_mem b (List.mem_cons_of_mem t h)
      · intro u hu
        rcases List.mem_cons.mp hu with rfl | h
        · exact le_trans hle hb
        · exact hall u h

/-- C8: among the spans whose text equals the requested area label, the
element `set_area` clicks is one of them and has the maximal vertical
offset. -/
theorem set_area_clicks_deepest (spans : List SpanElement) (area : String)
    (hex : ∃ s ∈ spans, s.text = area) :
    ∃ c, setAreaClickTarget spans area = some c ∧ c ∈ spans ∧ c.text = area ∧
      ∀ s ∈ spans, s.text = area → s.y ≤ c.y := by
  rcases hex with ⟨s0, hs0mem, hs0txt⟩
  have hs0f : s0 ∈ spans.filter (fun span => span.text == area) := by
    rw [List.mem_filter]
    exact ⟨hs0mem, by simp [hs0txt]⟩
  rcases hfl : spans.filter (fun span => span.text == area) with _ | ⟨h0, rest⟩
  · rw [hfl] at hs0f
    exact absurd hs0f (List.not_mem_nil s0)
  · have hres : setAreaClickTarget spans area =
        some (rest.foldl (fun best t => if t.y > best.y then t else best) h0) := by
      unfold setAreaClickTarget
      rw [hfl]
      rfl
    rcases foldl_maxY_spec rest h0 with ⟨hmem, hb, hall⟩
    rw [← hfl] at hmem
    rw [List.mem_filter] at hmem
    refine ⟨_, hres, hmem.1, by simpa using hmem.2, ?_⟩
    intro s hs hstxt
    have hsf : s ∈ spans.filter (fun span => span.text == area) := by
      rw [List.mem_filter]
      exact ⟨hs, by simp [hstxt]⟩
    rw [hfl] at hsf
    rcases List.mem_cons.mp hsf with rfl | h
    · exact hb
    · exact hall s h

/-- C8 witness: two spans share the area label at different vertical offsets
(plus an unrelated span); the deeper one is clicked. -/
theorem set_area_clicks_deepest_witness :
    (∃ c, setAreaClickTarget
        [⟨"BC03 - Southeast Victoria", 120, 0⟩, ⟨"Canada", 50, 1⟩,
         ⟨"BC03 - Southeast Victoria", 480, 2⟩] "BC03 - Southeast Victoria" = some c ∧
      c ∈ [(⟨"BC03 - Southeast Victoria", 120, 0⟩ : SpanElement), ⟨"Canada", 50, 1⟩,
           ⟨"BC03 - Southeast Victoria", 480, 2⟩] ∧
      c.text = "BC03 - Southeast Victoria" ∧
      ∀ s ∈ [(⟨"BC03 - Southeast Victoria", 120, 0⟩ : SpanElement), ⟨"Canada", 50, 1⟩,
             ⟨"BC03 - Southeast Victoria", 480, 2⟩],
        s.text = "BC03 - Southeast Victoria" → s.y ≤ c.y) ∧
    setAreaClickTarget
        [⟨"BC03 - Southeast Victoria", 120, 0⟩, ⟨"Canada", 50, 1⟩,
         ⟨"BC03 - Southeast Victoria", 480, 2⟩] "BC03 - Southeast Victoria" =
      some ⟨"BC03 - Southeast Victoria", 480, 2⟩ :=
  ⟨set_area_clicks_deepest _ "BC03 - Southeast Victoria"
      ⟨⟨"BC03 - Southeast Victoria", 120, 0⟩, by simp, rfl⟩,
   by decide⟩
